import Mathlib

/-!
# Monodog authorization layer — verification of the specification

This file gives a shallow embedding, in Lean 4, of the session store, the
OAuth CSRF state store, the repository-permission cache, the permission
resolver and the permission-hierarchy checks of the Monodog API backend
(`middleware/auth-middleware`, `routes/auth-routes`,
`services/permission-service`, `services/github-oauth-service`,
`types/auth`), and proves or refutes the stated properties of those
components.

Modelling conventions:
* A JavaScript `Map` is modelled as an association list (`List (κ × β)`)
  in insertion order, with the invariant that its keys are distinct.
  `Map.set` updates in place when the key is present and appends
  otherwise; `Map.delete` removes the key's entry (`mapSet`, `mapDelete`
  below).
* `Date.now()` is passed explicitly as a `now : Nat` argument
  (milliseconds).  A function that reads the clock more than once during
  one call (e.g. `setCachedPermission`) is modelled at a single instant.
* Network calls (`makeGitHubRequest` and the promise outcomes of the
  `async` functions built on it) are modelled with `Except String`,
  `Except.error` covering request errors, timeouts, non-2xx statuses and
  parse failures alike.
* Mutation of the module-level stores is modelled by explicit state
  passing: a function that mutates its store returns the new store next
  to its JavaScript return value.
* Logging calls are omitted; they do not affect any store or result.
-/

/-- JS `Map.delete key` on an association list: the entry with that key is
removed.  (`filter` also erases hypothetical duplicates, which cannot occur
under the `Map` distinct-key invariant.) -/
def mapDelete {κ β : Type} [BEq κ] (m : List (κ × β)) (k : κ) : List (κ × β) :=
  m.filter (fun p => p.1 != k)

/-- JS `Map.set key v` on an association list: update in place when the key
is present (keeping its position, as JS `Map` iteration order does),
otherwise append the new entry. -/
def mapSet {κ β : Type} [BEq κ] (m : List (κ × β)) (k : κ) (v : β) : List (κ × β) :=
  if m.any (fun p => p.1 == k) then m.map (fun p => if p.1 == k then (k, v) else p)
  else m ++ [(k, v)]

/-- Source: `types/auth.ts`: `RepositoryPermission = 'admin' | 'maintain' | 'write' | 'read' | 'none'`. -/
inductive RepositoryPermission where
  | admin
  | maintain
  | write
  | read
  | none
deriving DecidableEq, Repr

/-- Source: `types/auth.ts`: `MonoDogPermissionRole = 'Admin' | 'Maintainer' | 'Collaborator' | 'Denied'`. -/
inductive MonoDogPermissionRole where
  | Admin
  | Maintainer
  | Collaborator
  | Denied
deriving DecidableEq, Repr

/-- Source: `types/auth.ts` `GitHubUser` (the profile fields not read by any code
under verification — `html_url`, `bio`, counters — are omitted). -/
structure GitHubUser where
  id : Nat
  login : String
  name : Option String
  email : Option String
  avatar_url : String
deriving DecidableEq, Repr

/-- Source: `types/auth.ts` `AuthSession`. -/
structure AuthSession where
  accessToken : String
  refreshToken : Option String := Option.none
  expiresIn : Nat
  expiresAt : Nat
  user : GitHubUser
  scopes : List String
deriving DecidableEq, Repr

/-- Source: `types/auth.ts` `RepositoryPermissionResponse` (the shape returned by
GitHub's collaborator-permission endpoint). -/
structure RepositoryPermissionResponse where
  permission : RepositoryPermission
  user : Option GitHubUser := Option.none
deriving DecidableEq, Repr

/-- Source: `types/auth.ts` `CachedPermission`. -/
structure CachedPermission where
  userId : Nat
  username : String
  owner : String
  repo : String
  permission : RepositoryPermission
  role : MonoDogPermissionRole
  cachedAt : Nat
  ttl : Nat
deriving DecidableEq, Repr

/-- Source: `routes/auth-routes.ts`: the value type of the CSRF `stateStore`
(`{ createdAt: number; redirectUrl?: string }`). -/
structure OAuthStateEntry where
  createdAt : Nat
  redirectUrl : Option String
deriving DecidableEq, Repr

/-! ## github-oauth-service -/

/-- Source: `mapPermissionToRole` (`services/github-oauth-service.ts`).  The
source's `switch` sends `'none'` and the (unreachable, given the
`RepositoryPermission` type) `default` branch to `'Denied'`. -/
def mapPermissionToRole : RepositoryPermission → MonoDogPermissionRole
  | RepositoryPermission.admin => MonoDogPermissionRole.Admin
  | RepositoryPermission.maintain => MonoDogPermissionRole.Maintainer
  | RepositoryPermission.write => MonoDogPermissionRole.Collaborator
  | RepositoryPermission.read => MonoDogPermissionRole.Collaborator
  | RepositoryPermission.none => MonoDogPermissionRole.Denied

/-- The `permissionHierarchy` table of `hasPermission`
(`services/github-oauth-service.ts`): admin 4, maintain 3, write 2,
read 1, none 0. -/
def permissionHierarchy : RepositoryPermission → Nat
  | RepositoryPermission.admin => 4
  | RepositoryPermission.maintain => 3
  | RepositoryPermission.write => 2
  | RepositoryPermission.read => 1
  | RepositoryPermission.none => 0

/-- Source: `hasPermission` (`services/github-oauth-service.ts`). -/
def hasPermission (userPermission requiredPermission : RepositoryPermission) : Bool :=
  permissionHierarchy userPermission ≥ permissionHierarchy requiredPermission

/-- Source: `getRepositoryPermission` (`services/github-oauth-service.ts`).  The
argument is the outcome of the underlying `makeGitHubRequest` call
(`Except.error` = network error, timeout, non-2xx status or parse
failure); the result is the outcome of the wrapper's own promise.  The
`catch` branch swallows every failure and resolves with
`{ permission: 'none' }`. -/
def getRepositoryPermission (requestOutcome : Except String RepositoryPermissionResponse) :
    Except String RepositoryPermissionResponse :=
  match requestOutcome with
  | Except.ok response => Except.ok response
  | Except.error _ => Except.ok { permission := RepositoryPermission.none }

/-! ## permission-service -/

/-- The cache key `` `${userId}:${owner}/${repo}` `` of
`services/permission-service.ts`.  The string template is injective in
`(userId, owner, repo)` (a numeric id contains no `:` and a GitHub owner
name no `/`), so the key is modelled as the triple itself. -/
abbrev CacheKey := Nat × String × String

/-- Source: `getCacheKey` (`services/permission-service.ts`). -/
def getCacheKey (userId : Nat) (owner repo : String) : CacheKey :=
  (userId, owner, repo)

/-- The `permissionCache` map of `services/permission-service.ts`. -/
abbrev PermCache := List (CacheKey × CachedPermission)

/-- Source: `DEFAULT_TTL` (`services/permission-service.ts`): 5 minutes. -/
def DEFAULT_TTL : Nat := 5 * 60 * 1000

/-- Source: `MAX_CACHE_SIZE` (`services/permission-service.ts`). -/
def MAX_CACHE_SIZE : Nat := 10000

/-- Source: `getCachedPermission` (`services/permission-service.ts`): `none` on a
miss; a present-but-expired entry is deleted as part of the read. -/
def getCachedPermission (cache : PermCache) (userId : Nat) (owner repo : String) (now : Nat) :
    Option CachedPermission × PermCache :=
  let key := getCacheKey userId owner repo
  match List.lookup key cache with
  | Option.none => (Option.none, cache)
  | Option.some cached =>
    if now > cached.cachedAt + cached.ttl then (Option.none, mapDelete cache key)
    else (Option.some cached, cache)

/-- The eviction scan of `setCachedPermission`: starting from
`oldestKey = ''` (modelled `Option.none`) and `oldestTime = Date.now()`,
record each entry whose `cachedAt` is strictly below the running
minimum. -/
def findOldestEntry (cache : PermCache) (now : Nat) : Option CacheKey × Nat :=
  cache.foldl
    (fun acc p => if p.2.cachedAt < acc.2 then (Option.some p.1, p.2.cachedAt) else acc)
    (Option.none, now)

/-- Source: `setCachedPermission` (`services/permission-service.ts`): build the
entry, evict the scan's entry (if any was found) when at capacity, then
`Map.set`; returns the entry stored.  The source's two `Date.now()` reads
(entry timestamp, scan start) are modelled at the single instant `now`. -/
def setCachedPermission (cache : PermCache) (userId : Nat) (username owner repo : String)
    (permission : RepositoryPermission) (now : Nat) (ttl : Nat := DEFAULT_TTL) :
    CachedPermission × PermCache :=
  let role := mapPermissionToRole permission
  let cached : CachedPermission :=
    { userId := userId, username := username, owner := owner, repo := repo,
      permission := permission, role := role, cachedAt := now, ttl := ttl }
  let key := getCacheKey userId owner repo
  let cache1 :=
    if MAX_CACHE_SIZE ≤ cache.length then
      match (findOldestEntry cache now).1 with
      | Option.some oldestKey => mapDelete cache oldestKey
      | Option.none => cache
    else cache
  (cached, mapSet cache1 key cached)

/-- Source: `getUserRepositoryPermission` (`services/permission-service.ts`).
`providerResult` is the outcome of the awaited
`getRepositoryPermission(accessToken, owner, repo, username)` promise;
the `catch` branch caches `'none'`.  Returns the entry returned to the
caller next to the updated cache. -/
def getUserRepositoryPermission (cache : PermCache) (accessToken : String) (userId : Nat)
    (username owner repo : String) (forceRefresh : Bool)
    (providerResult : Except String RepositoryPermissionResponse) (now : Nat) :
    CachedPermission × PermCache :=
  let check := if forceRefresh then (Option.none, cache)
               else getCachedPermission cache userId owner repo now
  match check.1 with
  | Option.some cached => (cached, check.2)
  | Option.none =>
    match providerResult with
    | Except.ok response =>
      setCachedPermission check.2 userId username owner repo response.permission now
    | Except.error _ =>
      setCachedPermission check.2 userId username owner repo RepositoryPermission.none now

/-- Source: `invalidatePermissionCache` (`services/permission-service.ts`). -/
def invalidatePermissionCache (cache : PermCache) (userId : Nat) (owner repo : String) : PermCache :=
  mapDelete cache (getCacheKey userId owner repo)

/-- The type of `canPerformAction`'s `requiredAction` argument
(`'read' | 'write' | 'maintain' | 'admin'`). -/
inductive RequiredAction where
  | read
  | write
  | maintain
  | admin
deriving DecidableEq, Repr

/-- Source: `canPerformAction` (`services/permission-service.ts`): table of
permissions allowed per action, then an `includes` test.  (The source's
`|| []` fallback is unreachable: the action type has exactly the four
listed keys.) -/
def canPerformAction (permission : RepositoryPermission) (requiredAction : RequiredAction) : Bool :=
  let allowedPermissions : List RepositoryPermission :=
    match requiredAction with
    | RequiredAction.read =>
      [RepositoryPermission.read, RepositoryPermission.write,
       RepositoryPermission.maintain, RepositoryPermission.admin]
    | RequiredAction.write =>
      [RepositoryPermission.write, RepositoryPermission.maintain, RepositoryPermission.admin]
    | RequiredAction.maintain =>
      [RepositoryPermission.maintain, RepositoryPermission.admin]
    | RequiredAction.admin => [RepositoryPermission.admin]
  allowedPermissions.contains permission

/-- The spec's rank of a required action, via the fixed order
none(0) < read(1) < write(2) < maintain(3) < admin(4). -/
def requiredActionRank : RequiredAction → Nat
  | RequiredAction.read => 1
  | RequiredAction.write => 2
  | RequiredAction.maintain => 3
  | RequiredAction.admin => 4

/-! ## auth-middleware (session store) -/

/-- The `sessionStore` map of `middleware/auth-middleware.ts`. -/
abbrev SessionStore := List (String × AuthSession)

/-- The alphabet of `generateSessionToken`
(`middleware/auth-middleware.ts`, local `chars`). -/
def sessionTokenChars : String :=
  "ABCDEFGHIJKLMNOPQRSTUVWXYZabcdefghijklmnopqrstuvwxyz0123456789"

/-- Source: `generateSessionToken` (`middleware/auth-middleware.ts`).  Each loop
iteration appends `chars.charAt(Math.floor(Math.random() * chars.length))`;
since `Math.random() < 1` the index is a number below 62, modelled by the
oracle `randIndex : Nat → Fin 62` giving the draw of each iteration. -/
def generateSessionToken (randIndex : Nat → Fin 62) (length : Nat := 32) : String :=
  String.mk ((List.range length).map
    (fun i => sessionTokenChars.data.get (Fin.cast (by decide) (randIndex i))))

/-- Source: `getSession` (`middleware/auth-middleware.ts`): `null` when absent;
a stored session past its `expiresAt` is deleted as part of the read and
reported absent. -/
def getSession (store : SessionStore) (token : String) (now : Nat) :
    Option AuthSession × SessionStore :=
  match List.lookup token store with
  | Option.none => (Option.none, store)
  | Option.some session =>
    if now > session.expiresAt then (Option.none, mapDelete store token)
    else (Option.some session, store)

/-- Source: `invalidateSession` (`middleware/auth-middleware.ts`). -/
def invalidateSession (store : SessionStore) (token : String) : SessionStore :=
  mapDelete store token

/-- Source: the `for` loop of `clearExpiredSessions`
(`middleware/auth-middleware.ts`): one pass over the live map deleting
every entry with `now > expiresAt` (deleting the entry under the iterator
is safe on a JS `Map`), accumulating the local `clearedCount` next to the
store. -/
def clearExpiredSessionsLoop : SessionStore → Nat → SessionStore × Nat
  | [], _ => ([], 0)
  | p :: rest, now =>
    let r := clearExpiredSessionsLoop rest now
    if now > p.2.expiresAt then (r.1, r.2 + 1) else (p :: r.1, r.2)

/-- Source: `clearExpiredSessions` (`middleware/auth-middleware.ts`).
The function returns `void`: after the loop, `clearedCount` feeds only a
debug log and is discarded.  The embedding therefore returns the new
store next to the function's return value `()`. -/
def clearExpiredSessions (store : SessionStore) (now : Nat) : SessionStore × Unit :=
  ((clearExpiredSessionsLoop store now).1, ())

/-! ## auth-routes (CSRF state store) -/

/-- The `stateStore` map of `routes/auth-routes.ts`. -/
abbrev StateStore := List (String × OAuthStateEntry)

/-- Source: `STATE_EXPIRY` (`routes/auth-routes.ts`): 10 minutes. -/
def STATE_EXPIRY : Nat := 10 * 60 * 1000

/-- Source: `validateState` (`routes/auth-routes.ts`): false when absent; an
entry older than `STATE_EXPIRY` is deleted and rejected; otherwise true —
the record is NOT removed on success.  (`Date.now() - entry.createdAt`
for a record from the future is negative in JS and truncates to 0 here;
both fail the `> STATE_EXPIRY` test, so the branch is the same.) -/
def validateState (store : StateStore) (state : String) (now : Nat) : Bool × StateStore :=
  match List.lookup state store with
  | Option.none => (false, store)
  | Option.some entry =>
    if now - entry.createdAt > STATE_EXPIRY then (false, mapDelete store state)
    else (true, store)

/-- Source: `getRedirectUrl` (`routes/auth-routes.ts`). -/
def getRedirectUrl (store : StateStore) (state : String) : Option String :=
  (List.lookup state store).bind (fun entry => entry.redirectUrl)

/-- Source: `clearState` (`routes/auth-routes.ts`): called by the callback route
only after code exchange, user fetch and session creation all
succeeded. -/
def clearState (store : StateStore) (state : String) : StateStore :=
  mapDelete store state

/-! ## Concrete data used by witnesses and counterexamples -/

/-- A concrete user for witness stores. -/
def sampleUser : GitHubUser :=
  { id := 1, login := "alice", name := Option.none, email := Option.none, avatar_url := "" }

/-- A concrete session expiring at `e`. -/
def sampleSession (e : Nat) : AuthSession :=
  { accessToken := "tok", expiresIn := 3600, expiresAt := e, user := sampleUser, scopes := [] }

/-- A permission-cache entry for user id `i` on `"o"/"r"`, stamped
`cachedAt = t`. -/
def sampleEntry (i : Nat) (t : Nat) : CachedPermission :=
  { userId := i, username := "u", owner := "o", repo := "r",
    permission := RepositoryPermission.read, role := MonoDogPermissionRole.Collaborator,
    cachedAt := t, ttl := DEFAULT_TTL }

/-- A cache at capacity whose 10,000 entries were all stamped in the same
millisecond 0. -/
def fullCacheSameInstant : PermCache :=
  (List.range MAX_CACHE_SIZE).map (fun i => ((i, "o", "r"), sampleEntry i 0))

/-- A cache at capacity where entry 0 was stamped at 0 and the other
9,999 entries at millisecond 1. -/
def fullCacheOneOlder : PermCache :=
  (List.range MAX_CACHE_SIZE).map (fun i => ((i, "o", "r"), sampleEntry i (min i 1)))

/-! # Theorems -/

/-! ## Association-list map lemmas -/

theorem mapDelete_of_not_mem {κ β : Type} [BEq κ] [LawfulBEq κ] {m : List (κ × β)} {k : κ}
    (h : k ∉ m.map Prod.fst) : mapDelete m k = m := by
  unfold mapDelete
  apply List.filter_eq_self.mpr
  intro p hp
  have hne : p.1 ≠ k := fun e => h (e ▸ List.mem_map_of_mem Prod.fst hp)
  simpa [bne_iff_ne] using hne

theorem mapDelete_idem {κ β : Type} [BEq κ] {m : List (κ × β)} {k : κ} :
    mapDelete (mapDelete m k) k = mapDelete m k := by
  unfold mapDelete
  induction m with
  | nil => rfl
  | cons p rest ih =>
    by_cases h : (p.1 != k) = true
    · simp [List.filter_cons, h, ih]
    · simp [List.filter_cons, h, ih]

theorem lookup_mapDelete_self {κ β : Type} [BEq κ] [LawfulBEq κ] {m : List (κ × β)} {k : κ} :
    List.lookup k (mapDelete m k) = Option.none := by
  unfold mapDelete
  induction m with
  | nil => rfl
  | cons p rest ih =>
    by_cases h : p.1 = k
    · have : (p.1 != k) = false := by simp [h]
      simp only [List.filter_cons, this, if_false]
      exact ih
    · have hb : (p.1 != k) = true := by simp [h]
      have hl : (k == p.1) = false := by
        simp [beq_eq_false_iff_ne]
        exact Ne.symm h
      simp only [List.filter_cons, hb, if_true, List.lookup, hl]
      exact ih

/-- Claim C3. For every permission level in {none, read, write, maintain,
admin} and required action in {read, write, maintain, admin},
`canPerformAction` returns true iff the level's rank is at least the
action's rank under none(0) < read(1) < write(2) < maintain(3) <
admin(4); in particular `canPerformAction write admin = false`,
`canPerformAction admin read = true`, `canPerformAction none read =
false`. -/
theorem canPerformAction_iff_rank :
    (∀ (p : RepositoryPermission) (a : RequiredAction),
      canPerformAction p a = true ↔ permissionHierarchy p ≥ requiredActionRank a) ∧
    canPerformAction RepositoryPermission.write RequiredAction.admin = false ∧
    canPerformAction RepositoryPermission.admin RequiredAction.read = true ∧
    canPerformAction RepositoryPermission.none RequiredAction.read = false := by
  refine ⟨?_, rfl, rfl, rfl⟩
  intro p a
  cases p <;> cases a <;> decide

/-- Every character of the token alphabet is an ASCII upper-case letter,
lower-case letter, or digit. -/
theorem sessionTokenChars_alnum :
    ∀ c ∈ sessionTokenChars.data, (c.isUpper || c.isLower || c.isDigit) = true := by
  decide

/-- Claim C7. Every token produced by `generateSessionToken` with its
default parameters (any draws of the random oracle) has exactly 32
characters, each an ASCII upper-case letter, lower-case letter or digit. -/
theorem generateSessionToken_shape (randIndex : Nat → Fin 62) :
    (generateSessionToken randIndex).length = 32 ∧
    ∀ c ∈ (generateSessionToken randIndex).data, (c.isUpper || c.isLower || c.isDigit) = true := by
  have hd : (generateSessionToken randIndex).data =
      (List.range 32).map
        (fun i => sessionTokenChars.data.get (Fin.cast (by decide) (randIndex i))) := rfl
  constructor
  · show (generateSessionToken randIndex).data.length = 32
    rw [hd, List.length_map, List.length_range]
  · intro c hc
    rw [hd] at hc
    obtain ⟨i, -, rfl⟩ := List.mem_map.mp hc
    exact sessionTokenChars_alnum _ (List.get_mem _ _ _)

/-- The sweep loop keeps exactly the unexpired entries, in order, and its
local `clearedCount` ends at the number of expired entries. -/
theorem clearExpiredSessionsLoop_spec (store : SessionStore) (now : Nat) :
    clearExpiredSessionsLoop store now =
      (store.filter (fun p => !decide (now > p.2.expiresAt)),
       store.countP (fun p => decide (now > p.2.expiresAt))) := by
  induction store with
  | nil => rfl
  | cons p rest ih =>
    by_cases h : now > p.2.expiresAt
    · simp [clearExpiredSessionsLoop, ih, List.filter_cons, List.countP_cons, h]
    · simp [clearExpiredSessionsLoop, ih, List.filter_cons, List.countP_cons, h]

/-- Counterexample to claim C6.  `clearExpiredSessions` does not return
the count of removed entries: a sweep at `now = 100` of a store holding
one session expired at 50 removes one entry (its loop's `clearedCount`
ends at 1), a sweep of the empty store removes zero, yet the two calls
return the very same value — the function's return value is `void` and
carries no count. -/
theorem clearExpiredSessions_void_return :
    (clearExpiredSessionsLoop [("t", sampleSession 50)] 100).2 = 1 ∧
    (clearExpiredSessionsLoop [] 100).2 = 0 ∧
    (clearExpiredSessions [("t", sampleSession 50)] 100).1 = [] ∧
    (clearExpiredSessions [("t", sampleSession 50)] 100).2 =
      (clearExpiredSessions [] 100).2 := by
  exact ⟨rfl, rfl, rfl, rfl⟩

/-- Claim C6, amended.  The expiry sweep `clearExpiredSessions` removes
exactly the entries with `now > expiresAt` and leaves the unexpired
entries in place (in order); the number of entries removed is computed
only into the loop-local `clearedCount`, which feeds a debug log — the
function itself returns nothing. -/
theorem clearExpiredSessions_sweep_spec (store : SessionStore) (now : Nat) :
    (clearExpiredSessions store now).1 =
      store.filter (fun p => !decide (now > p.2.expiresAt)) ∧
    (clearExpiredSessionsLoop store now).2 =
      store.countP (fun p => decide (now > p.2.expiresAt)) ∧
    (clearExpiredSessions store now).2 = () := by
  refine ⟨?_, ?_, rfl⟩
  · show (clearExpiredSessionsLoop store now).1 = _
    rw [clearExpiredSessionsLoop_spec]
  · rw [clearExpiredSessionsLoop_spec]

/-- Claim C5. For a token whose stored session satisfies `now > expiresAt`,
`getSession` reports not-found and removes the entry as a side effect of
the read (afterwards the token no longer resolves); for a present,
unexpired session it returns that session and leaves the store
unchanged. -/
theorem getSession_lazy_expiry (store : SessionStore) (token : String) (now : Nat)
    (session : AuthSession) (hlookup : List.lookup token store = Option.some session) :
    (now > session.expiresAt →
      getSession store token now = (Option.none, mapDelete store token) ∧
      List.lookup token (mapDelete store token) = Option.none) ∧
    (¬ now > session.expiresAt →
      getSession store token now = (Option.some session, store)) := by
  constructor
  · intro hexp
    refine ⟨?_, lookup_mapDelete_self⟩
    simp [getSession, hlookup, hexp]
  · intro hexp
    simp [getSession, hlookup, hexp]

/-- Witness for C5: a session expired at 50 read at `now = 100` is
reported absent and physically removed; a session expiring at 200 read at
`now = 100` is returned. -/
theorem getSession_lazy_expiry_witness :
    (getSession [("t", sampleSession 50)] "t" 100 =
        (Option.none, mapDelete [("t", sampleSession 50)] "t") ∧
      List.lookup "t" (mapDelete [("t", sampleSession 50)] "t") = Option.none) ∧
    getSession [("t", sampleSession 200)] "t" 100 = (Option.some (sampleSession 200), [("t", sampleSession 200)]) := by
  constructor
  · exact (getSession_lazy_expiry [("t", sampleSession 50)] "t" 100 (sampleSession 50)
      (by rfl)).1 (by decide)
  · exact (getSession_lazy_expiry [("t", sampleSession 200)] "t" 100 (sampleSession 200)
      (by rfl)).2 (by decide)

/-- Claim C8. Invalidation is unconditional, idempotent removal: for the
session store, invalidating an absent token is a no-op and invalidating
twice equals invalidating once; likewise for the permission cache at a
(subject, owner, resource) triple. -/
theorem invalidate_idempotent (store : SessionStore) (cache : PermCache) (token : String)
    (userId : Nat) (owner repo : String) :
    (token ∉ store.map Prod.fst → invalidateSession store token = store) ∧
    invalidateSession (invalidateSession store token) token = invalidateSession store token ∧
    (getCacheKey userId owner repo ∉ cache.map Prod.fst →
      invalidatePermissionCache cache userId owner repo = cache) ∧
    invalidatePermissionCache (invalidatePermissionCache cache userId owner repo) userId owner repo =
      invalidatePermissionCache cache userId owner repo := by
  refine ⟨fun h => mapDelete_of_not_mem h, mapDelete_idem, fun h => mapDelete_of_not_mem h, ?_⟩
  unfold invalidatePermissionCache
  exact mapDelete_idem

/-- Witness for C8: invalidating the absent token `"b"` and the absent
pair `(2, "o", "r")` leaves concrete one-entry stores unchanged, and
repeating an invalidation changes nothing. -/
theorem invalidate_idempotent_witness :
    invalidateSession [("a", sampleSession 7)] "b" = [("a", sampleSession 7)] ∧
    invalidateSession (invalidateSession [("a", sampleSession 7)] "a") "a" =
      invalidateSession [("a", sampleSession 7)] "a" ∧
    invalidatePermissionCache [((1, "o", "r"), sampleEntry 1 0)] 2 "o" "r" =
      [((1, "o", "r"), sampleEntry 1 0)] ∧
    invalidatePermissionCache
        (invalidatePermissionCache [((1, "o", "r"), sampleEntry 1 0)] 1 "o" "r") 1 "o" "r" =
      invalidatePermissionCache [((1, "o", "r"), sampleEntry 1 0)] 1 "o" "r" := by
  refine ⟨(invalidate_idempotent [("a", sampleSession 7)] [] "b" 0 "" "").1 (by decide),
    (invalidate_idempotent [("a", sampleSession 7)] [] "a" 0 "" "").2.1,
    (invalidate_idempotent [] [((1, "o", "r"), sampleEntry 1 0)] "" 2 "o" "r").2.2.1 (by decide),
    (invalidate_idempotent [] [((1, "o", "r"), sampleEntry 1 0)] "" 1 "o" "r").2.2.2⟩

/-- Counterexample to claim C2.  On a store holding nonce `"n"` issued at
time 0, `validateState` at time 1 succeeds and leaves the record in the
store, and a second `validateState` with the same nonce — the handshake
after the first validation having failed for an unrelated reason, so that
`clearState` was never called — succeeds again: validation is not an
atomic check-then-delete and the second call does not fail. -/
theorem validateState_second_call_succeeds :
    (validateState [("n", { createdAt := 0, redirectUrl := Option.none })] "n" 1).1 = true ∧
    (validateState [("n", { createdAt := 0, redirectUrl := Option.none })] "n" 1).2 =
      [("n", { createdAt := 0, redirectUrl := Option.none })] ∧
    (validateState
        (validateState [("n", { createdAt := 0, redirectUrl := Option.none })] "n" 1).2
        "n" 1).1 = true := by
  refine ⟨rfl, rfl, rfl⟩

/-- Claim C2, amended. A successful validation does not remove the stored
record: `validateState` returns true and leaves the store unchanged
whenever the nonce is present and within 10 minutes of issue, so a second
`validateState` call with the same nonce also succeeds.  The record is
removed only by the separate `clearState` operation, which the callback
invokes **after** the whole handshake has succeeded — after `clearState`
every further validation of that nonce fails (and an expired nonce is
removed lazily by `validateState` itself and fails). -/
theorem validateState_clearState_spec (store : StateStore) (nonce : String) (now later : Nat)
    (entry : OAuthStateEntry) (hlookup : List.lookup nonce store = Option.some entry)
    (hfresh : ¬ now - entry.createdAt > STATE_EXPIRY) :
    validateState store nonce now = (true, store) ∧
    (validateState (validateState store nonce now).2 nonce now).1 = true ∧
    validateState (clearState store nonce) nonce later = (false, clearState store nonce) := by
  have h1 : validateState store nonce now = (true, store) := by
    simp [validateState, hlookup, hfresh]
  refine ⟨h1, ?_, ?_⟩
  · rw [h1, h1]
  · unfold clearState
    simp [validateState, lookup_mapDelete_self]

/-- Witness for the amended C2, at the concrete store of the
counterexample. -/
theorem validateState_clearState_witness :
    validateState [("n", { createdAt := 0, redirectUrl := Option.none })] "n" 1 =
      (true, [("n", { createdAt := 0, redirectUrl := Option.none })]) ∧
    (validateState
        (validateState [("n", { createdAt := 0, redirectUrl := Option.none })] "n" 1).2
        "n" 1).1 = true ∧
    validateState (clearState [("n", { createdAt := 0, redirectUrl := Option.none })] "n") "n" 2 =
      (false, clearState [("n", { createdAt := 0, redirectUrl := Option.none })] "n") :=
  validateState_clearState_spec [("n", { createdAt := 0, redirectUrl := Option.none })] "n" 1 2
    { createdAt := 0, redirectUrl := Option.none } (by rfl) (by decide)

/-- Claim C9. `getRepositoryPermission` is total with respect to request
failures: every failing request outcome yields `{ permission: 'none' }`
instead of a propagated error, every outcome whatsoever resolves
successfully, and consequently the resolver behaves on the wrapper's
outcome exactly as on a successful provider response — its catch branch
is unreachable via provider failures. -/
theorem getRepositoryPermission_total (raw : Except String RepositoryPermissionResponse) :
    (∀ e, getRepositoryPermission (Except.error e) =
      Except.ok { permission := RepositoryPermission.none, user := Option.none }) ∧
    ∃ r, getRepositoryPermission raw = Except.ok r ∧
      ∀ (cache : PermCache) (accessToken : String) (userId : Nat)
        (username owner repo : String) (forceRefresh : Bool) (now : Nat),
        getUserRepositoryPermission cache accessToken userId username owner repo forceRefresh
          (getRepositoryPermission raw) now =
        getUserRepositoryPermission cache accessToken userId username owner repo forceRefresh
          (Except.ok r) now := by
  refine ⟨fun e => rfl, ?_⟩
  cases raw with
  | ok r => exact ⟨r, rfl, fun _ _ _ _ _ _ _ _ => rfl⟩
  | error e =>
    exact ⟨{ permission := RepositoryPermission.none }, rfl, fun _ _ _ _ _ _ _ _ => rfl⟩

/-- Claim C1. Whenever the resolver actually consults the provider (forced
refresh, or a cache miss) and the provider call fails or times out, the
resolution stores — via `setCachedPermission` with the standard
`DEFAULT_TTL` of 5 minutes — and returns an entry with permission level
`none` and role `Denied`, exactly as it would a successful `'none'`
response; no error reaches the caller (the result is an ordinary
`CachedPermission`). -/
theorem resolve_provider_failure_fail_closed (cache : PermCache) (accessToken : String)
    (userId : Nat) (username owner repo : String) (forceRefresh : Bool) (now : Nat) (e : String)
    (hmiss : forceRefresh = true ∨
      (getCachedPermission cache userId owner repo now).1 = Option.none) :
    let res := getUserRepositoryPermission cache accessToken userId username owner repo
      forceRefresh (getRepositoryPermission (Except.error e)) now
    res.1.permission = RepositoryPermission.none ∧
    res.1.role = MonoDogPermissionRole.Denied ∧
    res.1.ttl = DEFAULT_TTL ∧
    DEFAULT_TTL = 5 * 60 * 1000 ∧
    (∃ cache1,
      res = setCachedPermission cache1 userId username owner repo RepositoryPermission.none now) ∧
    res = getUserRepositoryPermission cache accessToken userId username owner repo forceRefresh
      (Except.ok { permission := RepositoryPermission.none }) now := by
  intro res
  rcases hmiss with h | h
  · subst h
    exact ⟨rfl, rfl, rfl, rfl, ⟨cache, rfl⟩, rfl⟩
  · cases forceRefresh with
    | true => exact ⟨rfl, rfl, rfl, rfl, ⟨cache, rfl⟩, rfl⟩
    | false =>
      show res.1.permission = _ ∧ _
      have hres : res = setCachedPermission ((getCachedPermission cache userId owner repo now).2)
          userId username owner repo RepositoryPermission.none now := by
        show getUserRepositoryPermission cache accessToken userId username owner repo
          false (getRepositoryPermission (Except.error e)) now = _
        unfold getUserRepositoryPermission
        simp only [Bool.false_eq_true, if_false, h]
        rfl
      refine ⟨?_, ?_, ?_, rfl, ⟨(getCachedPermission cache userId owner repo now).2, hres⟩, ?_⟩
      · rw [hres]; rfl
      · rw [hres]; rfl
      · rw [hres]; rfl
      · rw [hres]
        show _ = getUserRepositoryPermission cache accessToken userId username owner repo
          false (Except.ok { permission := RepositoryPermission.none }) now
        unfold getUserRepositoryPermission
        simp only [Bool.false_eq_true, if_false, h]

/-- Witness for C1: on the empty cache (a miss), a timed-out provider
call at time 0 caches and returns a `none`/`Denied` entry with the
default ttl. -/
theorem resolve_provider_failure_witness :
    (let res := getUserRepositoryPermission [] "tk" 42 "alice" "acme" "widgets" false
      (getRepositoryPermission (Except.error "GitHub API request timeout")) 0
    res.1.permission = RepositoryPermission.none ∧
    res.1.role = MonoDogPermissionRole.Denied ∧
    res.1.ttl = DEFAULT_TTL ∧
    DEFAULT_TTL = 5 * 60 * 1000 ∧
    (∃ cache1,
      res = setCachedPermission cache1 42 "alice" "acme" "widgets" RepositoryPermission.none 0) ∧
    res = getUserRepositoryPermission [] "tk" 42 "alice" "acme" "widgets" false
      (Except.ok { permission := RepositoryPermission.none }) 0) :=
  resolve_provider_failure_fail_closed [] "tk" 42 "alice" "acme" "widgets" false 0
    "GitHub API request timeout" (Or.inr rfl)

/-- Invariant of the eviction scan's fold: the final running minimum is a
lower bound of the initial one and of every entry's `cachedAt`, and the
accumulator either never changed or holds the key and `cachedAt` of some
entry that was strictly below the initial minimum. -/
theorem findOldestEntry_fold (l : PermCache) :
    ∀ acc : Option CacheKey × Nat,
      (l.foldl
        (fun acc p => if p.2.cachedAt < acc.2 then (Option.some p.1, p.2.cachedAt) else acc)
        acc).2 ≤ acc.2 ∧
      (∀ p ∈ l,
        (l.foldl
          (fun acc p => if p.2.cachedAt < acc.2 then (Option.some p.1, p.2.cachedAt) else acc)
          acc).2 ≤ p.2.cachedAt) ∧
      ((l.foldl
          (fun acc p => if p.2.cachedAt < acc.2 then (Option.some p.1, p.2.cachedAt) else acc)
          acc) = acc ∨
        ∃ p ∈ l,
          (l.foldl
            (fun acc p => if p.2.cachedAt < acc.2 then (Option.some p.1, p.2.cachedAt) else acc)
            acc).1 = Option.some p.1 ∧
          (l.foldl
            (fun acc p => if p.2.cachedAt < acc.2 then (Option.some p.1, p.2.cachedAt) else acc)
            acc).2 = p.2.cachedAt ∧
          (l.foldl
            (fun acc p => if p.2.cachedAt < acc.2 then (Option.some p.1, p.2.cachedAt) else acc)
            acc).2 < acc.2) := by
  induction l with
  | nil =>
    intro acc
    exact ⟨Nat.le_refl _, fun p hp => absurd hp (List.not_mem_nil p), Or.inl rfl⟩
  | cons q rest ih =>
    intro acc
    rw [List.foldl_cons]
    by_cases hq : q.2.cachedAt < acc.2
    · rw [if_pos hq]
      obtain ⟨h1, h2, h3⟩ := ih (Option.some q.1, q.2.cachedAt)
      refine ⟨Nat.le_trans h1 (Nat.le_of_lt hq), ?_, ?_⟩
      · intro p hp
        rcases List.mem_cons.mp hp with rfl | hp'
        · exact h1
        · exact h2 p hp'
      · rcases h3 with heq | ⟨p, hp, hk, hv, hlt⟩
        · exact Or.inr ⟨q, List.mem_cons_self q rest, by rw [heq], by rw [heq], by rw [heq]; exact hq⟩
        · exact Or.inr ⟨p, List.mem_cons_of_mem q hp, hk, hv, Nat.lt_trans hlt hq⟩
    · rw [if_neg hq]
      obtain ⟨h1, h2, h3⟩ := ih acc
      refine ⟨h1, ?_, ?_⟩
      · intro p hp
        rcases List.mem_cons.mp hp with rfl | hp'
        · exact Nat.le_trans h1 (Nat.le_of_not_lt hq)
        · exact h2 p hp'
      · rcases h3 with heq | ⟨p, hp, hk, hv, hlt⟩
        · exact Or.inl heq
        · exact Or.inr ⟨p, List.mem_cons_of_mem q hp, hk, hv, hlt⟩

/-- When no entry is strictly older than the scan's starting clock value,
the eviction scan finds nothing. -/
theorem findOldestEntry_no_older (cache : PermCache) (now : Nat)
    (hnone : ∀ p ∈ cache, ¬ p.2.cachedAt < now) :
    findOldestEntry cache now = (Option.none, now) := by
  obtain ⟨h1, h2, h3⟩ := findOldestEntry_fold cache (Option.none, now)
  rcases h3 with heq | ⟨p, hp, -, hv, hlt⟩
  · exact heq
  · exact absurd (hv ▸ hlt) (hnone p hp)

/-- When some entry is strictly older than the scan's starting clock
value, the scan selects an entry whose `cachedAt` is minimal over the
whole cache. -/
theorem findOldestEntry_picks_min (cache : PermCache) (now : Nat)
    (hold : ∃ p ∈ cache, p.2.cachedAt < now) :
    ∃ p ∈ cache, (findOldestEntry cache now).1 = Option.some p.1 ∧
      (findOldestEntry cache now).2 = p.2.cachedAt ∧
      ∀ q ∈ cache, p.2.cachedAt ≤ q.2.cachedAt := by
  obtain ⟨h1, h2, h3⟩ := findOldestEntry_fold cache (Option.none, now)
  obtain ⟨p0, hp0, hlt0⟩ := hold
  rcases h3 with heq | ⟨p, hp, hk, hv, -⟩
  · have : now ≤ p0.2.cachedAt := by
      have := h2 p0 hp0
      rw [heq] at this
      exact this
    omega
  · exact ⟨p, hp, hk, hv, fun q hq => hv ▸ h2 q hq⟩

/-- A key outside a map's key set fails the `Map.set` presence test. -/
theorem any_key_eq_false {κ β : Type} [BEq κ] [LawfulBEq κ] {m : List (κ × β)} {k : κ}
    (h : k ∉ m.map Prod.fst) : m.any (fun p => p.1 == k) = false := by
  rw [List.any_eq_false]
  intro p hp he
  exact h ((eq_of_beq he) ▸ List.mem_map_of_mem Prod.fst hp)

/-- Source: `Map.set` with a fresh key appends the new entry. -/
theorem mapSet_of_not_mem {κ β : Type} [BEq κ] [LawfulBEq κ] {m : List (κ × β)} {k : κ} (v : β)
    (h : k ∉ m.map Prod.fst) : mapSet m k v = m ++ [(k, v)] := by
  unfold mapSet
  rw [any_key_eq_false h]
  simp

/-- Deleting a present key from a distinctly-keyed map shrinks it by
exactly one entry. -/
theorem mapDelete_length {κ β : Type} [BEq κ] [LawfulBEq κ] {m : List (κ × β)} {k : κ}
    (hnodup : (m.map Prod.fst).Nodup) (hk : k ∈ m.map Prod.fst) :
    (mapDelete m k).length + 1 = m.length := by
  induction m with
  | nil => cases hk
  | cons p rest ih =>
    rw [List.map_cons, List.nodup_cons] at hnodup
    obtain ⟨hp1, hrest⟩ := hnodup
    by_cases he : p.1 = k
    · have hknr : k ∉ rest.map Prod.fst := he ▸ hp1
      have hbne : (p.1 != k) = false := by simp [he]
      show ((p :: rest).filter (fun p => p.1 != k)).length + 1 = (p :: rest).length
      rw [List.filter_cons, hbne, if_neg (by simp)]
      have hrest_eq : rest.filter (fun p => p.1 != k) = rest := mapDelete_of_not_mem hknr
      rw [hrest_eq, List.length_cons]
    · have hk' : k ∈ rest.map Prod.fst := by
        rcases List.mem_cons.mp hk with h1 | h2
        · exact absurd h1.symm he
        · exact h2
      have hbne : (p.1 != k) = true := by simp [he]
      show ((p :: rest).filter (fun p => p.1 != k)).length + 1 = (p :: rest).length
      rw [List.filter_cons, hbne, if_pos rfl, List.length_cons, List.length_cons]
      have := ih hrest hk'
      unfold mapDelete at this
      omega

/-- The deleted key is absent from the result of `Map.delete`. -/
theorem mapDelete_key_not_mem {κ β : Type} [BEq κ] [LawfulBEq κ] (m : List (κ × β)) (k : κ) :
    k ∉ (mapDelete m k).map Prod.fst := by
  intro h
  obtain ⟨p, hp, he⟩ := List.mem_map.mp h
  have hf := List.of_mem_filter hp
  rw [he] at hf
  simp at hf

/-- Source: `Map.delete` only removes entries. -/
theorem mapDelete_subset_keys {κ β : Type} [BEq κ] {m : List (κ × β)} {k k1 : κ}
    (h : k1 ∈ (mapDelete m k).map Prod.fst) : k1 ∈ m.map Prod.fst := by
  obtain ⟨p, hp, he⟩ := List.mem_map.mp h
  exact he ▸ List.mem_map_of_mem Prod.fst (List.mem_of_mem_filter hp)

/-- When no stored entry is strictly older than the clock value and the
key is fresh, `setCachedPermission` evicts nothing and appends the new
entry — whether or not the cache is at capacity. -/
theorem setCachedPermission_no_evict_aux (cache : PermCache) (userId : Nat)
    (username owner repo : String) (permission : RepositoryPermission) (now : Nat)
    (hnone : ∀ p ∈ cache, ¬ p.2.cachedAt < now)
    (hnew : getCacheKey userId owner repo ∉ cache.map Prod.fst) :
    (setCachedPermission cache userId username owner repo permission now).2 =
      cache ++ [(getCacheKey userId owner repo,
        { userId := userId, username := username, owner := owner, repo := repo,
          permission := permission, role := mapPermissionToRole permission,
          cachedAt := now, ttl := DEFAULT_TTL })] := by
  have hfo := findOldestEntry_no_older cache now hnone
  unfold setCachedPermission
  rw [hfo]
  by_cases hlen : MAX_CACHE_SIZE ≤ cache.length
  · rw [if_pos hlen]
    exact mapSet_of_not_mem _ hnew
  · rw [if_neg hlen]
    exact mapSet_of_not_mem _ hnew

/-- When some stored entry is strictly older than the clock value, the
cache is at capacity and the key is fresh, `setCachedPermission` deletes
the scanned minimal entry and appends the new one. -/
theorem setCachedPermission_evict_aux (cache : PermCache) (userId : Nat)
    (username owner repo : String) (permission : RepositoryPermission) (now : Nat)
    (hlen : MAX_CACHE_SIZE ≤ cache.length)
    (hnew : getCacheKey userId owner repo ∉ cache.map Prod.fst)
    (hold : ∃ p ∈ cache, p.2.cachedAt < now) :
    ∃ p ∈ cache, (∀ q ∈ cache, p.2.cachedAt ≤ q.2.cachedAt) ∧
      (setCachedPermission cache userId username owner repo permission now).2 =
        mapDelete cache p.1 ++ [(getCacheKey userId owner repo,
          { userId := userId, username := username, owner := owner, repo := repo,
            permission := permission, role := mapPermissionToRole permission,
            cachedAt := now, ttl := DEFAULT_TTL })] := by
  obtain ⟨p, hp, hk, hv, hmin⟩ := findOldestEntry_picks_min cache now hold
  refine ⟨p, hp, fun q hq => hv ▸ hv.symm ▸ hmin q hq, ?_⟩
  unfold setCachedPermission
  rw [if_pos hlen, hk]
  exact mapSet_of_not_mem _
    (fun hmem => hnew (mapDelete_subset_keys hmem))

theorem fullCacheSameInstant_length : fullCacheSameInstant.length = MAX_CACHE_SIZE := by
  unfold fullCacheSameInstant
  rw [List.length_map, List.length_range]

theorem fullCacheSameInstant_fresh_key :
    getCacheKey 10000 "o" "r" ∉ fullCacheSameInstant.map Prod.fst := by
  intro h
  unfold fullCacheSameInstant at h
  rw [List.map_map] at h
  obtain ⟨i, hi, he⟩ := List.mem_map.mp h
  have hieq : i = 10000 := congrArg Prod.fst he
  rw [hieq] at hi
  have := List.mem_range.mp hi
  simp [MAX_CACHE_SIZE] at this

theorem fullCacheOneOlder_length : fullCacheOneOlder.length = MAX_CACHE_SIZE := by
  unfold fullCacheOneOlder
  rw [List.length_map, List.length_range]

theorem fullCacheOneOlder_fresh_key :
    getCacheKey 10000 "o" "r" ∉ fullCacheOneOlder.map Prod.fst := by
  intro h
  unfold fullCacheOneOlder at h
  rw [List.map_map] at h
  obtain ⟨i, hi, he⟩ := List.mem_map.mp h
  have hieq : i = 10000 := congrArg Prod.fst he
  rw [hieq] at hi
  have := List.mem_range.mp hi
  simp [MAX_CACHE_SIZE] at this

theorem fullCacheOneOlder_keys_nodup : (fullCacheOneOlder.map Prod.fst).Nodup := by
  unfold fullCacheOneOlder
  rw [List.map_map]
  exact List.Nodup.map (fun a b h => congrArg Prod.fst h) (List.nodup_range MAX_CACHE_SIZE)

theorem fullCacheOneOlder_has_older : ∃ p ∈ fullCacheOneOlder, p.2.cachedAt < 1 := by
  refine ⟨((0, "o", "r"), sampleEntry 0 (min 0 1)), ?_, ?_⟩
  · unfold fullCacheOneOlder
    exact List.mem_map.mpr ⟨0, List.mem_range.mpr (by simp [MAX_CACHE_SIZE]), rfl⟩
  · decide

/-- Claim C10. The eviction scan only ever selects an entry whose
`cachedAt` is strictly earlier than the clock value at the start of the
scan: for a `set` with a fresh key on a cache at capacity (10,000) in
which no entry is strictly older than that clock value (e.g. all were
inserted in the same millisecond as the call), nothing is evicted — every
stored entry survives — and the size grows to 10,001, exceeding the
stated capacity. -/
theorem setCachedPermission_same_instant_no_eviction (cache : PermCache) (userId : Nat)
    (username owner repo : String) (permission : RepositoryPermission) (now : Nat)
    (hlen : cache.length = MAX_CACHE_SIZE)
    (hnone : ∀ p ∈ cache, ¬ p.2.cachedAt < now)
    (hnew : getCacheKey userId owner repo ∉ cache.map Prod.fst) :
    (setCachedPermission cache userId username owner repo permission now).2.length =
      MAX_CACHE_SIZE + 1 ∧
    ∀ p ∈ cache, p ∈ (setCachedPermission cache userId username owner repo permission now).2 := by
  rw [setCachedPermission_no_evict_aux cache userId username owner repo permission now hnone hnew]
  constructor
  · rw [List.length_append, hlen]
    rfl
  · intro p hp
    exact List.mem_append_left _ hp

/-- Witness for C10: the capacity-full cache whose 10,000 entries all
carry `cachedAt = 0`, written to at `now = 0` under the fresh key
`(10000, "o", "r")`. -/
theorem setCachedPermission_same_instant_no_eviction_witness :
    (setCachedPermission fullCacheSameInstant 10000 "u" "o" "r"
        RepositoryPermission.read 0).2.length = MAX_CACHE_SIZE + 1 ∧
    ∀ p ∈ fullCacheSameInstant,
      p ∈ (setCachedPermission fullCacheSameInstant 10000 "u" "o" "r"
        RepositoryPermission.read 0).2 :=
  setCachedPermission_same_instant_no_eviction fullCacheSameInstant 10000 "u" "o" "r"
    RepositoryPermission.read 0 fullCacheSameInstant_length
    (fun p _ => Nat.not_lt_zero _) fullCacheSameInstant_fresh_key

/-- Counterexample to claim C4.  A cache holding exactly 10,000 entries,
all stamped `cachedAt = 0`, to which `set` adds the fresh key
`(10000, "o", "r")` at `now = 0` (all entries inserted in the same
millisecond as the call): no entry is evicted and the resulting size is
10,001, not 10,000. -/
theorem setCachedPermission_full_cache_grows :
    fullCacheSameInstant.length = 10000 ∧
    (setCachedPermission fullCacheSameInstant 10000 "u" "o" "r"
      RepositoryPermission.read 0).2.length = 10001 := by
  constructor
  · exact fullCacheSameInstant_length
  · rw [setCachedPermission_no_evict_aux fullCacheSameInstant 10000 "u" "o" "r"
      RepositoryPermission.read 0 (fun p _ => Nat.not_lt_zero _) fullCacheSameInstant_fresh_key]
    rw [List.length_append, fullCacheSameInstant_length]
    rfl

/-- Claim C4, amended. On a distinctly-keyed cache holding exactly 10,000
entries, a `set` with a new distinct key evicts exactly one entry with
minimal `cachedAt` — so the size stays at 10,000 and that oldest entry's
key is gone — **provided** at least one stored entry has `cachedAt`
strictly earlier than the clock value of the call; when no entry is
strictly older (e.g. all inserted in the same millisecond as the call),
nothing is evicted and the size instead becomes 10,001. -/
theorem setCachedPermission_evicts_oldest (cache : PermCache) (userId : Nat)
    (username owner repo : String) (permission : RepositoryPermission) (now : Nat)
    (hlen : cache.length = MAX_CACHE_SIZE)
    (hnodup : (cache.map Prod.fst).Nodup)
    (hnew : getCacheKey userId owner repo ∉ cache.map Prod.fst)
    (hold : ∃ p ∈ cache, p.2.cachedAt < now) :
    (setCachedPermission cache userId username owner repo permission now).2.length =
      MAX_CACHE_SIZE ∧
    ∃ p ∈ cache, (∀ q ∈ cache, p.2.cachedAt ≤ q.2.cachedAt) ∧
      p.1 ∉ (setCachedPermission cache userId username owner repo permission now).2.map Prod.fst := by
  obtain ⟨p, hp, hmin, hres⟩ := setCachedPermission_evict_aux cache userId username owner repo
    permission now (le_of_eq hlen.symm) hnew hold
  have hkey_mem : p.1 ∈ cache.map Prod.fst := List.mem_map_of_mem Prod.fst hp
  constructor
  · rw [hres, List.length_append]
    have hdl := mapDelete_length hnodup hkey_mem
    rw [hlen] at hdl
    simp only [List.length_cons, List.length_nil]
    omega
  · refine ⟨p, hp, hmin, ?_⟩
    rw [hres, List.map_append]
    intro hmem
    rcases List.mem_append.mp hmem with h1 | h2
    · exact mapDelete_key_not_mem cache p.1 h1
    · simp only [List.map_cons, List.map_nil, List.mem_singleton] at h2
      exact hnew (h2 ▸ hkey_mem)

/-- Witness for the amended C4: the capacity-full cache where entry 0 is
strictly older (`cachedAt = 0`) than the rest (`cachedAt = 1`), written
to at `now = 1` under the fresh key `(10000, "o", "r")`. -/
theorem setCachedPermission_evicts_oldest_witness :
    (setCachedPermission fullCacheOneOlder 10000 "u" "o" "r"
        RepositoryPermission.read 1).2.length = MAX_CACHE_SIZE ∧
    ∃ p ∈ fullCacheOneOlder, (∀ q ∈ fullCacheOneOlder, p.2.cachedAt ≤ q.2.cachedAt) ∧
      p.1 ∉ (setCachedPermission fullCacheOneOlder 10000 "u" "o" "r"
        RepositoryPermission.read 1).2.map Prod.fst :=
  setCachedPermission_evicts_oldest fullCacheOneOlder 10000 "u" "o" "r"
    RepositoryPermission.read 1 fullCacheOneOlder_length fullCacheOneOlder_keys_nodup
    fullCacheOneOlder_fresh_key fullCacheOneOlder_has_older
